import Mathlib

/-! Shallow embedding of the newyearbot repository: the streaming-edit
throttle of src/index.js (handleGreeting / onChunk), the Telegram client
behavior of src/telegram.js (sendMessage / editMessageText /
extractUserInfo), and the OpenRouter streaming generator
generateGreetingStream (src/unnamed/part_002, the openrouter module that
index.js imports).  Times are natural-number milliseconds of the monotone
wall clock read by Date.now(); JavaScript strings are Lean Strings;
absent / undefined JSON fields are Option.none. -/

namespace NYB

/-- EDIT_THROTTLE_MS from src/index.js line 12: minimum time between
message edits. -/
def EDIT_THROTTLE_MS : Nat := 500

/-- The in-progress suffix appended to every streaming (non-final) edit in
onChunk (src/index.js lines 119 and 124): a space and U+258C. -/
def marker : String := " ▌"

/-! Telegram client layer (src/telegram.js). -/

/-- Decoded body of a Telegram API response: the ok flag and the optional
description field. -/
structure TgResponse where
  ok : Bool
  description : Option String
deriving DecidableEq

/-- JavaScript hay.includes(sub) for a nonempty literal sub: sub occurs as
a substring of hay exactly when splitting on it yields at least two
parts. -/
def strIncludes (hay sub : String) : Bool :=
  decide (2 ≤ (hay.splitOn sub).length)

/-- The test data.description?.includes('message is not modified') from
src/telegram.js line 71: undefined description gives a falsy result. -/
def descNotModified (d : Option String) : Bool :=
  match d with
  | none => false
  | some s => strIncludes s "message is not modified"

/-- sendMessage (src/telegram.js lines 22-44) after the response body has
been decoded: on ok:false it throws a Telegram API error (interpolating an
undefined description as the string "undefined"), otherwise it returns the
response. -/
def sendMessage (data : TgResponse) : Except String TgResponse :=
  if !data.ok then
    Except.error ("Telegram API error: " ++ data.description.getD "undefined")
  else
    Except.ok data

/-- editMessageText (src/telegram.js lines 54-76) after the response body
has been decoded: it never throws; it returns the response, and logs the
error exactly when ok is false and the description does not include
'message is not modified'.  The second component records whether it
logged. -/
def editMessageText (data : TgResponse) : TgResponse × Bool :=
  (data, !data.ok && !descNotModified data.description)

/-! Inbound update data model (src/telegram.js extractUserInfo,
src/index.js handleUpdate). -/

/-- Telegram chat object (only the id field is read). -/
structure TgChat where
  id : Int
deriving DecidableEq

/-- Telegram user object, the message.from field.  Optional string fields
model absent-or-present JSON values. -/
structure TgUser where
  id : Int
  first_name : Option String
  last_name : Option String
  username : Option String
  language_code : Option String
  is_premium : Option Bool
deriving DecidableEq

/-- Telegram message object.  The source field is named from in the JSON;
from is a Lean keyword, so it is called fromUser here. -/
structure TgMessage where
  fromUser : Option TgUser
  chat : TgChat
  text : Option String
deriving DecidableEq

/-- Telegram update object. -/
structure TgUpdate where
  message : Option TgMessage
deriving DecidableEq

/-- The user-info record built by extractUserInfo (src/telegram.js lines
262-270). -/
structure UserInfo where
  id : Int
  firstName : Option String
  lastName : Option String
  username : Option String
  languageCode : Option String
  isPremium : Bool
  chatId : Int
deriving DecidableEq

/-- JavaScript x || null for a string-or-undefined x: undefined and the
empty string are falsy and give null; any other string is kept. -/
def orNullStr (s : Option String) : Option String :=
  match s with
  | none => none
  | some v => if v = "" then none else some v

/-- extractUserInfo (src/telegram.js lines 255-271): null when the update
has no message or the message has no from; otherwise the user-info record,
with user.x || null defaults and user.is_premium || false. -/
def extractUserInfo (update : TgUpdate) : Option UserInfo :=
  match update.message with
  | none => none
  | some message =>
    match message.fromUser with
    | none => none
    | some user =>
      some {
        id := user.id
        firstName := orNullStr user.first_name
        lastName := orNullStr user.last_name
        username := orNullStr user.username
        languageCode := orNullStr user.language_code
        isPremium := user.is_premium.getD false
        chatId := message.chat.id
      }

/-- Which handler handleUpdate (src/index.js lines 47-71) dispatches to.
ignored means handleUpdate returns without reaching any outbound API call:
every outbound call in that function lives inside handleStart or
handleGreeting. -/
inductive Dispatch
  | ignored
  | startCmd
  | greeting
deriving DecidableEq

/-- The expression message?.text || '' from src/index.js line 56: both an
absent text and an empty text give the empty string. -/
def messageText (update : TgUpdate) : String :=
  match update.message with
  | none => ""
  | some m => m.text.getD ""

/-- handleUpdate (src/index.js lines 47-71): skip when extractUserInfo is
null; dispatch /start to handleStart; dispatch /greeting or any truthy
text to handleGreeting; otherwise fall through with no call. -/
def handleUpdate (update : TgUpdate) : Dispatch :=
  match extractUserInfo update with
  | none => Dispatch.ignored
  | some _ =>
    let text := messageText update
    if text = "/start" then Dispatch.startCmd
    else if text = "/greeting" ∨ text ≠ "" then Dispatch.greeting
    else Dispatch.ignored


/-! The streaming-edit throttle (src/index.js, handleGreeting lines
91-148).  One session state holds the three mutable variables of
handleGreeting plus observation logs: the list of editMessageText calls
issued (with their JS times and texts) and the list of texts passed to the
onChunk callback.  A scheduled deferred edit is represented by its fire
time lastEditTime + EDIT_THROTTLE_MS; in the single-threaded event loop it
fires exactly when that time arrives strictly before the next event. -/

/-- Outcome of one editMessageText (or sendMessage) network call, as seen
at the call site: okResp (returns with ok:true), apiErr (returns with
ok:false — editMessageText does not throw on these, see
telegram_error_asymmetry), netErr (fetch or body decoding threw). -/
inductive EditOutcome
  | okResp
  | apiErr
  | netErr
deriving DecidableEq

/-- Record of one editMessageText call: the JS time at which it was
issued, its text argument, and whether it is the mandatory final edit of
src/index.js line 138 (as opposed to a streaming edit from onChunk). -/
structure Edit where
  time : Nat
  text : String
  final : Bool
deriving DecidableEq

/-- Session state of handleGreeting: lastEditTime, pendingText, the fire
time of the scheduled deferred edit if one is pending (editTimeout), the
number of editMessageText calls made so far (to index their outcomes), and
the two observation logs. -/
structure SessionState where
  lastEditTime : Nat
  pendingText : String
  timer : Option Nat
  nCalls : Nat
  edits : List Edit
  chunkLog : List String
deriving DecidableEq

/-- State at the top of handleGreeting (src/index.js lines 102-104):
lastEditTime = 0, pendingText = '', no timer. -/
def initState : SessionState :=
  ⟨0, "", none, 0, [], []⟩

/-- Whether an outcome is a thrown error at the call site. -/
def isNetErr : EditOutcome → Bool
  | EditOutcome.netErr => true
  | _ => false

/-- One editMessageText call at time t with the given text: the call is
recorded and its outcome consumed; the second component reports whether
the call threw. -/
def doEdit (out : Nat → EditOutcome) (s : SessionState) (t : Nat) (text : String)
    (isFinal : Bool) : SessionState × Bool :=
  ({ s with
      nCalls := s.nCalls + 1
      edits := s.edits ++ [⟨t, text, isFinal⟩] },
    isNetErr (out s.nCalls))

/-- A scheduled deferred edit whose fire time has passed (strictly before
the current time t) has already fired: the timer callback of src/index.js
lines 122-125 set lastEditTime to the fire time and edited with the
then-current pendingText plus the marker.  A network failure of that call
is an unhandled rejection inside setTimeout and never propagates into the
chunk stream, so its outcome is consumed but ignored. -/
def fireDueTimer (out : Nat → EditOutcome) (s : SessionState) (t : Nat) : SessionState :=
  match s.timer with
  | none => s
  | some f =>
    if f < t then
      (doEdit out { s with lastEditTime := f, timer := none } f
        (s.pendingText ++ marker) false).1
    else s

/-- Body of the onChunk callback (src/index.js lines 107-127) once any due
deferred edit has fired: record the callback argument, set pendingText,
cancel any pending timer (clearTimeout), then either edit immediately
(when at least EDIT_THROTTLE_MS has passed since lastEditTime) or leave a
deferred edit scheduled for lastEditTime + EDIT_THROTTLE_MS.  The Bool
reports whether an immediate edit call threw, which propagates out of the
awaited callback; scheduling never throws. -/
def onChunkCore (out : Nat → EditOutcome) (s : SessionState) (t : Nat) (text : String) :
    SessionState × Bool :=
  if EDIT_THROTTLE_MS ≤ t - s.lastEditTime then
    doEdit out
      { s with
          chunkLog := s.chunkLog ++ [text]
          pendingText := text
          timer := none
          lastEditTime := t }
      t (text ++ marker) false
  else
    ({ s with
        chunkLog := s.chunkLog ++ [text]
        pendingText := text
        timer := some (t + (EDIT_THROTTLE_MS - (t - s.lastEditTime))) }, false)

/-- onChunk (src/index.js lines 107-127) invoked at JS time t: any
deferred edit due strictly before t has already fired in the event loop,
then the callback body runs. -/
def onChunk (out : Nat → EditOutcome) (s : SessionState) (t : Nat) (text : String) :
    SessionState × Bool :=
  onChunkCore out (fireDueTimer out s t) t text

/-- onChunk in a run where every call returns ok (the pure throttling
behavior the spec describes). -/
def onChunkOk (s : SessionState) (t : Nat) (text : String) : SessionState :=
  (onChunk (fun _ => EditOutcome.okResp) s t text).1

/-- Deliver a list of (time, text) chunks to onChunk in order, all calls
returning ok. -/
def runChunksOk (s : SessionState) : List (Nat × String) → SessionState
  | [] => s
  | (t, c) :: rest => runChunksOk (onChunkOk s t c) rest

/-- Stream completion in handleGreeting (src/index.js lines 130-138) at JS
time tEnd with the text returned by generateGreetingStream: any deferred
edit due strictly before tEnd has already fired; the pending timer is
cleared (clearTimeout, lines 133-135); then the final edit is issued
unconditionally with the completion text and no marker.  The Bool reports
whether the final edit call threw. -/
def completeSession (out : Nat → EditOutcome) (s : SessionState) (tEnd : Nat)
    (finalText : String) : SessionState × Bool :=
  doEdit out { fireDueTimer out s tEnd with timer := none } tEnd finalText true

/-- A whole throttle session with all calls ok: chunks delivered to
onChunk, then completion at tEnd with the final text. -/
def fullSessionOk (chunks : List (Nat × String)) (tEnd : Nat) (finalText : String) :
    SessionState :=
  (completeSession (fun _ => EditOutcome.okResp) (runChunksOk initState chunks) tEnd
    finalText).1

/-- Chunk times are non-decreasing starting no earlier than t0, and the
last time (or t0 when there is none) is at most tEnd. -/
def traceFrom (t0 : Nat) : List (Nat × String) → Nat → Bool
  | [], tEnd => decide (t0 ≤ tEnd)
  | (t, _) :: rest, tEnd => decide (t0 ≤ t) && traceFrom t rest tEnd

/-- Chunk times are non-decreasing (the monotone Date.now() clock) and the
completion time comes no earlier than the last chunk. -/
def validTrace (chunks : List (Nat × String)) (tEnd : Nat) : Bool :=
  traceFrom 0 chunks tEnd

/-- Chunk times are strictly increasing above t0 and the last one is at
most tEnd. -/
def strictFrom (t0 : Nat) : List (Nat × String) → Nat → Bool
  | [], tEnd => decide (t0 ≤ tEnd)
  | (t, _) :: rest, tEnd => decide (t0 < t) && strictFrom t rest tEnd

/-- Chunk times are strictly increasing (each chunk arrives at a distinct
millisecond of the Date.now() clock) and the completion time comes no
earlier than the last chunk. -/
def strictTrace (chunks : List (Nat × String)) (tEnd : Nat) : Bool :=
  match chunks with
  | [] => true
  | (t, _) :: rest => strictFrom t rest tEnd

/-- Adjacent editMessageText calls are at least EDIT_THROTTLE_MS apart,
except that a pair whose second member is the mandatory final edit is
exempt. -/
def gapsOK : List Edit → Bool
  | [] => true
  | [_] => true
  | e :: e' :: rest =>
    (e'.final || decide (e.time + EDIT_THROTTLE_MS ≤ e'.time)) && gapsOK (e' :: rest)

/-- Edit issue times listed in non-decreasing order. -/
def timesSorted : List Edit → Bool
  | [] => true
  | [_] => true
  | e :: e' :: rest => decide (e.time ≤ e'.time) && timesSorted (e' :: rest)

/-- The text of the most recent chunk delivered at or before time t, if
any (chunks listed in delivery order). -/
def latestTextAt (chunks : List (Nat × String)) (t : Nat) : Option String :=
  ((chunks.filter (fun c => c.1 ≤ t)).getLast?).map Prod.snd

/-- Weak invariant of one throttle session, relative to a lower bound on
the time of the next event: the last-edit clock never runs ahead of the
event clock, a pending timer always fires exactly EDIT_THROTTLE_MS after
the last edit, issued edits are properly spaced, and lastEditTime is the
time of the last issued edit. -/
structure WInv (s : SessionState) (bound : Nat) : Prop where
  last_le : s.lastEditTime ≤ bound
  timer_eq : ∀ f, s.timer = some f → f = s.lastEditTime + EDIT_THROTTLE_MS
  gaps : gapsOK s.edits = true
  last_edit : s.edits ≠ [] → (s.edits.getLast?).map Edit.time = some s.lastEditTime

/-- Strong invariant of one throttle session relative to the chunks
delivered so far (done) and a lower bound on the next event time: in
addition to the weak fields, the pending timer lies at or beyond the
bound and past all delivered chunks, pendingText is the last delivered
chunk, every issued edit is non-final, chronologically ordered, no later
than the last edit, and carries the marker-suffixed text of the most
recent chunk delivered at its issue time. -/
structure SInv (done : List (Nat × String)) (s : SessionState) (bound : Nat) : Prop where
  last_le : s.lastEditTime ≤ bound
  timer_eq : ∀ f, s.timer = some f → f = s.lastEditTime + EDIT_THROTTLE_MS
  timer_ge : ∀ f, s.timer = some f → bound ≤ f
  timer_done : ∀ f, s.timer = some f → done ≠ []
  pending_ok : done ≠ [] → (done.getLast?).map Prod.snd = some s.pendingText
  done_le : ∀ p ∈ done, p.1 ≤ bound
  nonfinal : ∀ e ∈ s.edits, e.final = false
  gaps : gapsOK s.edits = true
  sorted : timesSorted s.edits = true
  last_edit : s.edits ≠ [] → (s.edits.getLast?).map Edit.time = some s.lastEditTime
  edits_le : ∀ e ∈ s.edits, e.time ≤ s.lastEditTime
  texts : ∀ e ∈ s.edits, ∃ c, latestTextAt done e.time = some c ∧ e.text = c ++ marker
  empty_init : done = [] → s.edits = [] ∧ s.timer = none ∧ s.lastEditTime = 0

/-! The OpenRouter streaming generator generateGreetingStream
(src/unnamed/part_002 lines 36-105), modelled at the level of decoded SSE
lines: JSON parsing itself is external, so each processed line is
represented by what the loop extracts from it. -/

/-- One processed SSE line of the OpenRouter stream, with the JS time at
which the loop handles it: delta s is a data line whose parsed JSON
carries choices[0].delta.content = s; junk is any line the loop skips
(blank line, SSE comment, data: [DONE], or a malformed data line whose
JSON.parse error is caught and ignored, lines 78-79 and 91-93); fail is an
exception escaping the try block (non-OK HTTP response thrown at lines
57-61, or a network error from fetch or reader.read()). -/
inductive StreamEvent
  | delta (s : String)
  | junk
  | fail
deriving DecidableEq

/-- JavaScript String.prototype.trim() on the accumulated text (line 98),
written over the character list so that it evaluates: drop whitespace
characters from both ends. -/
def jsTrim (s : String) : String :=
  ⟨((s.data.dropWhile Char.isWhitespace).reverse.dropWhile Char.isWhitespace).reverse⟩

/-- getFallbackGreeting (src/unnamed/part_002 lines 183-190):
firstName || 'друг' with the fixed greeting text around it. -/
def getFallbackGreeting (firstName : Option String) : String :=
  let name := match firstName with
    | none => "друг"
    | some n => if n = "" then "друг" else n
  "Дорогой " ++ name ++
    "!\n\nПоздравляю тебя с Новым Годом! Пусть этот год принесёт тебе много радости, счастья и исполнения всех желаний. Пусть каждый день будет наполнен теплом и любовью!\n\nС любовью, Максим"

/-- The read loop of generateGreetingStream (lines 68-96): process events
in order, extending fullText on each nonempty delta and awaiting onChunk
with the accumulated text; a fail event, or a throwing immediate edit
inside onChunk, escapes the loop as an error carrying the state at that
point; a normal end of stream returns fullText.trim() (line 98). -/
def streamLoop (out : Nat → EditOutcome) :
    SessionState → String → List (Nat × StreamEvent) → SessionState × Except Unit String
  | s, full, [] => (s, Except.ok (jsTrim full))
  | s, full, (t, ev) :: rest =>
    match ev with
    | StreamEvent.junk => streamLoop out s full rest
    | StreamEvent.fail => (s, Except.error ())
    | StreamEvent.delta d =>
      if d = "" then streamLoop out s full rest
      else
        match onChunk out s t (full ++ d) with
        | (s, true) => (s, Except.error ())
        | (s, false) => streamLoop out s (full ++ d) rest

/-- generateGreetingStream (lines 36-105): run the read loop from the
fresh session state; on any exception the catch block (lines 99-104)
computes the fallback greeting, awaits onChunk with it at JS time tCatch,
and returns it — unless that onChunk call itself throws, in which case the
error propagates to the caller. -/
def generateGreetingStream (out : Nat → EditOutcome) (firstName : Option String)
    (events : List (Nat × StreamEvent)) (tCatch : Nat) :
    SessionState × Except Unit String :=
  match streamLoop out initState "" events with
  | (s, Except.ok txt) => (s, Except.ok txt)
  | (s, Except.error _) =>
    match onChunk out s tCatch (getFallbackGreeting firstName) with
    | (s, true) => (s, Except.error ())
    | (s, false) => (s, Except.ok (getFallbackGreeting firstName))

/-- How one run of handleGreeting ends: success is the log line at
src/index.js line 140; notified means the catch block's generic message
was delivered; failedBoth means even that sendMessage threw, so the error
propagated with nothing shown to the user. -/
inductive FinOutcome
  | success
  | notified
  | failedBoth
deriving DecidableEq

/-- The generic failure notice sent by handleGreeting's catch block
(src/index.js lines 143-146). -/
def genericErrorText : String :=
  "Извини, произошла ошибка. Попробуй ещё раз через минутку!"

/-- sendMessage throws both on a network error and on an ok:false
response (src/telegram.js lines 38-41). -/
def sendThrows : EditOutcome → Bool
  | EditOutcome.okResp => false
  | _ => true

/-- handleGreeting (src/index.js lines 102-147) after the placeholder
message is in place: stream with the throttle, then the mandatory final
edit; any exception from either lands in the catch block, which attempts
exactly one sendMessage with the generic notice and nothing else.  The
returned list holds the texts passed to sendMessage in this part of the
flow. -/
def handleGreetingModel (out : Nat → EditOutcome) (catchSend : EditOutcome)
    (firstName : Option String) (events : List (Nat × StreamEvent))
    (tCatch tEnd : Nat) : SessionState × List String × FinOutcome :=
  match generateGreetingStream out firstName events tCatch with
  | (s, Except.error _) =>
    (s, [genericErrorText],
      if sendThrows catchSend then FinOutcome.failedBoth else FinOutcome.notified)
  | (s, Except.ok finalGreeting) =>
    match completeSession out s tEnd finalGreeting with
    | (s, true) =>
      (s, [genericErrorText],
        if sendThrows catchSend then FinOutcome.failedBoth else FinOutcome.notified)
    | (s, false) => (s, [], FinOutcome.success)

/-- Concatenation of the delta contents of a list of stream events: the
fullText accumulated by a read-loop run that reaches the end of the
stream. -/
def joinDeltas : List (Nat × StreamEvent) → String
  | [] => ""
  | (_, StreamEvent.delta d) :: rest => d ++ joinDeltas rest
  | (_, StreamEvent.junk) :: rest => joinDeltas rest
  | (_, StreamEvent.fail) :: rest => joinDeltas rest

/-- Decidable equality for the result of the streaming generator, so that
concrete runs can be checked by evaluation. -/
instance : DecidableEq (Except Unit String) := fun a b =>
  match a, b with
  | Except.ok x, Except.ok y =>
    if h : x = y then Decidable.isTrue (by rw [h])
    else Decidable.isFalse (fun hc => h (Except.ok.inj hc))
  | Except.error x, Except.error y => Decidable.isTrue (by cases x; cases y; rfl)
  | Except.ok _, Except.error _ => Decidable.isFalse (fun hc => Except.noConfusion hc)
  | Except.error _, Except.ok _ => Decidable.isFalse (fun hc => Except.noConfusion hc)

/-! Claims C8, C9, C10. -/

/-- C8: for every Telegram response with ok = false, sendMessage throws,
while editMessageText never throws: it returns the response object
unchanged, and logs exactly when the description does not contain
'message is not modified'. -/
theorem telegram_error_asymmetry (r : TgResponse) (h : r.ok = false) :
    (∃ msg, sendMessage r = Except.error msg)
    ∧ (editMessageText r).1 = r
    ∧ ((editMessageText r).2 = true ↔ descNotModified r.description = false) := by
  refine ⟨⟨"Telegram API error: " ++ r.description.getD "undefined", ?_⟩, rfl, ?_⟩
  · simp [sendMessage, h]
  · simp [editMessageText, h]

theorem telegram_error_asymmetry_witness :
    (TgResponse.mk false (some "Bad Request: chat not found")).ok = false
    ∧ ((∃ msg, sendMessage ⟨false, some "Bad Request: chat not found"⟩ = Except.error msg)
        ∧ (editMessageText ⟨false, some "Bad Request: chat not found"⟩).1
            = ⟨false, some "Bad Request: chat not found"⟩
        ∧ ((editMessageText ⟨false, some "Bad Request: chat not found"⟩).2 = true
            ↔ descNotModified (some "Bad Request: chat not found") = false)) :=
  ⟨rfl, telegram_error_asymmetry ⟨false, some "Bad Request: chat not found"⟩ rfl⟩

/-- C9: an inbound update whose message has a sender but no text (absent
or empty) is dispatched nowhere: handleUpdate returns without performing
any outbound call. -/
theorem no_text_silently_ignored (u : TgUpdate) (m : TgMessage) (usr : TgUser)
    (hm : u.message = some m) (hf : m.fromUser = some usr)
    (ht : m.text = none ∨ m.text = some "") :
    handleUpdate u = Dispatch.ignored := by
  have htext : messageText u = "" := by
    cases ht <;> simp [messageText, hm, *]
  simp [handleUpdate, extractUserInfo, hm, hf, htext]

theorem no_text_silently_ignored_witness :
    (TgUpdate.mk (some ⟨some ⟨7, some "Ann", none, none, none, none⟩, ⟨9⟩, none⟩)).message
        = some ⟨some ⟨7, some "Ann", none, none, none, none⟩, ⟨9⟩, none⟩
    ∧ (TgMessage.mk (some ⟨7, some "Ann", none, none, none, none⟩) ⟨9⟩ none).fromUser
        = some ⟨7, some "Ann", none, none, none, none⟩
    ∧ handleUpdate ⟨some ⟨some ⟨7, some "Ann", none, none, none, none⟩, ⟨9⟩, none⟩⟩
        = Dispatch.ignored :=
  ⟨rfl, rfl,
    no_text_silently_ignored
      ⟨some ⟨some ⟨7, some "Ann", none, none, none, none⟩, ⟨9⟩, none⟩⟩
      ⟨some ⟨7, some "Ann", none, none, none, none⟩, ⟨9⟩, none⟩
      ⟨7, some "Ann", none, none, none, none⟩ rfl rfl (Or.inl rfl)⟩

/-- C10: extractUserInfo returns null exactly when the update lacks a
message or the message lacks a from field; otherwise it returns a record
with chatId = message.chat.id, whose firstName, lastName, username and
languageCode default to null when absent and whose isPremium defaults to
false. -/
theorem extractUserInfo_spec (u : TgUpdate) :
    (extractUserInfo u = none
      ↔ u.message = none ∨ ∃ m, u.message = some m ∧ m.fromUser = none)
    ∧ (∀ m usr, u.message = some m → m.fromUser = some usr →
        ∃ info, extractUserInfo u = some info
          ∧ info.chatId = m.chat.id
          ∧ (usr.first_name = none → info.firstName = none)
          ∧ (usr.last_name = none → info.lastName = none)
          ∧ (usr.username = none → info.username = none)
          ∧ (usr.language_code = none → info.languageCode = none)
          ∧ (usr.is_premium = none → info.isPremium = false)) := by
  constructor
  · cases hm : u.message with
    | none => simp [extractUserInfo, hm]
    | some m =>
      cases hf : m.fromUser with
      | none => simp [extractUserInfo, hm, hf]
      | some usr => simp [extractUserInfo, hm, hf]
  · intro m usr hm hf
    refine ⟨⟨usr.id, orNullStr usr.first_name, orNullStr usr.last_name,
        orNullStr usr.username, orNullStr usr.language_code,
        usr.is_premium.getD false, m.chat.id⟩,
      by simp [extractUserInfo, hm, hf], rfl, ?_, ?_, ?_, ?_, ?_⟩
    all_goals intro h
    all_goals simp [orNullStr, h]
/-! Basic facts about the throttle operations. -/

theorem doEdit_fst (out : Nat → EditOutcome) (s : SessionState) (t : Nat) (text : String)
    (b : Bool) :
    (doEdit out s t text b).1
      = { s with nCalls := s.nCalls + 1, edits := s.edits ++ [⟨t, text, b⟩] } := rfl

theorem fireDueTimer_out_irrel (out out' : Nat → EditOutcome) (s : SessionState) (t : Nat) :
    fireDueTimer out s t = fireDueTimer out' s t := by
  unfold fireDueTimer
  split
  · rfl
  · split <;> rfl

theorem onChunk_out_irrel (out out' : Nat → EditOutcome) (s : SessionState) (t : Nat)
    (text : String) :
    (onChunk out s t text).1 = (onChunk out' s t text).1 := by
  unfold onChunk onChunkCore
  rw [fireDueTimer_out_irrel out out' s t]
  split <;> rfl

theorem isNetErr_false {o : EditOutcome} (h : o ≠ EditOutcome.netErr) : isNetErr o = false := by
  cases o with
  | okResp => rfl
  | apiErr => rfl
  | netErr => exact absurd rfl h

theorem onChunk_no_throw (out : Nat → EditOutcome) (s : SessionState) (t : Nat)
    (text : String) (hout : ∀ i, out i ≠ EditOutcome.netErr) :
    (onChunk out s t text).2 = false := by
  unfold onChunk onChunkCore
  split
  · exact isNetErr_false (hout _)
  · rfl

theorem streamLoop_junk_step (out : Nat → EditOutcome) (s : SessionState) (full : String)
    (t : Nat) (rest : List (Nat × StreamEvent)) :
    streamLoop out s full ((t, StreamEvent.junk) :: rest) = streamLoop out s full rest := by
  simp [streamLoop]

theorem streamLoop_fail_step (out : Nat → EditOutcome) (s : SessionState) (full : String)
    (t : Nat) (rest : List (Nat × StreamEvent)) :
    streamLoop out s full ((t, StreamEvent.fail) :: rest) = (s, Except.error ()) := by
  simp [streamLoop]

theorem streamLoop_empty_delta_step (out : Nat → EditOutcome) (s : SessionState)
    (full : String) (t : Nat) (rest : List (Nat × StreamEvent)) :
    streamLoop out s full ((t, StreamEvent.delta "") :: rest)
      = streamLoop out s full rest := by
  simp [streamLoop]

theorem streamLoop_delta_step (out : Nat → EditOutcome) (s : SessionState) (full : String)
    (t : Nat) (d : String) (rest : List (Nat × StreamEvent)) (hd : d ≠ "")
    (hout : ∀ i, out i ≠ EditOutcome.netErr) :
    streamLoop out s full ((t, StreamEvent.delta d) :: rest)
      = streamLoop out (onChunk out s t (full ++ d)).1 (full ++ d) rest := by
  have h2 := onChunk_no_throw out s t (full ++ d) hout
  rcases hoc : onChunk out s t (full ++ d) with ⟨s1, b⟩
  rw [hoc] at h2
  have hb : b = false := h2
  subst hb
  simp only [streamLoop, if_neg hd, hoc]

theorem fireDueTimer_chunkLog (out : Nat → EditOutcome) (s : SessionState) (t : Nat) :
    (fireDueTimer out s t).chunkLog = s.chunkLog := by
  unfold fireDueTimer
  split
  · rfl
  · split <;> rfl

theorem onChunk_chunkLog (out : Nat → EditOutcome) (s : SessionState) (t : Nat)
    (text : String) :
    ((onChunk out s t text).1).chunkLog = s.chunkLog ++ [text] := by
  unfold onChunk onChunkCore
  split <;> simp [doEdit, fireDueTimer_chunkLog]

theorem completeSession_fst (out : Nat → EditOutcome) (s : SessionState) (tEnd : Nat)
    (ft : String) :
    (completeSession out s tEnd ft).1
      = { fireDueTimer out s tEnd with
            timer := none
            nCalls := (fireDueTimer out s tEnd).nCalls + 1
            edits := (fireDueTimer out s tEnd).edits ++ [⟨tEnd, ft, true⟩] } := rfl

theorem completeSession_no_throw (out : Nat → EditOutcome) (s : SessionState) (tEnd : Nat)
    (ft : String) (hout : ∀ i, out i ≠ EditOutcome.netErr) :
    (completeSession out s tEnd ft).2 = false := by
  unfold completeSession doEdit
  exact isNetErr_false (hout _)

theorem completeSession_chunkLog (out : Nat → EditOutcome) (s : SessionState) (tEnd : Nat)
    (ft : String) :
    (completeSession out s tEnd ft).1.chunkLog = s.chunkLog := by
  rw [completeSession_fst]
  exact fireDueTimer_chunkLog out s tEnd

theorem fireDueTimer_nonfinal (out : Nat → EditOutcome) (s : SessionState) (t : Nat)
    (h : ∀ e ∈ s.edits, e.final = false) :
    ∀ e ∈ (fireDueTimer out s t).edits, e.final = false := by
  unfold fireDueTimer
  split
  · exact h
  · split
    · intro e he
      rw [doEdit_fst] at he
      simp only [List.mem_append, List.mem_singleton] at he
      rcases he with he | he
      · exact h e he
      · rw [he]
    · exact h

theorem onChunk_nonfinal (out : Nat → EditOutcome) (s : SessionState) (t : Nat)
    (text : String) (h : ∀ e ∈ s.edits, e.final = false) :
    ∀ e ∈ ((onChunk out s t text).1).edits, e.final = false := by
  have hf := fireDueTimer_nonfinal out s t h
  unfold onChunk onChunkCore
  split
  · intro e he
    rw [doEdit_fst] at he
    simp only [List.mem_append, List.mem_singleton] at he
    rcases he with he | he
    · exact hf e he
    · rw [he]
  · exact hf

theorem runChunksOk_nonfinal (chunks : List (Nat × String)) :
    ∀ s, (∀ e ∈ s.edits, e.final = false) →
      ∀ e ∈ (runChunksOk s chunks).edits, e.final = false := by
  induction chunks with
  | nil => intro s h; exact h
  | cons p rest ih =>
    intro s h
    exact ih (onChunkOk s p.1 p.2) (onChunk_nonfinal _ s p.1 p.2 h)

/-! Behavior of the read loop under given call outcomes. -/

theorem streamLoop_eq_ok_run (out : Nat → EditOutcome)
    (hout : ∀ i, out i ≠ EditOutcome.netErr) :
    ∀ (events : List (Nat × StreamEvent)) (s : SessionState) (full : String),
      streamLoop out s full events
        = streamLoop (fun _ => EditOutcome.okResp) s full events := by
  intro events
  induction events with
  | nil => intro s full; rfl
  | cons p rest ih =>
    intro s full
    rcases p with ⟨t, ev⟩
    cases ev with
    | junk =>
      rw [streamLoop_junk_step, streamLoop_junk_step]
      exact ih s full
    | fail => rw [streamLoop_fail_step, streamLoop_fail_step]
    | delta d =>
      by_cases hd : d = ""
      · subst hd
        rw [streamLoop_empty_delta_step, streamLoop_empty_delta_step]
        exact ih s full
      · rw [streamLoop_delta_step out s full t d rest hd hout,
          streamLoop_delta_step (fun _ => EditOutcome.okResp) s full t d rest hd
            (fun _ h => EditOutcome.noConfusion h),
          onChunk_out_irrel out (fun _ => EditOutcome.okResp) s t (full ++ d)]
        exact ih _ _

theorem streamLoop_result (out : Nat → EditOutcome)
    (hout : ∀ i, out i ≠ EditOutcome.netErr) :
    ∀ (events : List (Nat × StreamEvent)) (s : SessionState) (full : String),
      (∀ p ∈ events, p.2 ≠ StreamEvent.fail) →
      (streamLoop out s full events).2 = Except.ok (jsTrim (full ++ joinDeltas events)) := by
  intro events
  induction events with
  | nil =>
    intro s full _
    simp [streamLoop, joinDeltas, String.append_empty]
  | cons p rest ih =>
    intro s full hev
    have hrest : ∀ p ∈ rest, p.2 ≠ StreamEvent.fail :=
      fun q hq => hev q (List.mem_cons_of_mem p hq)
    rcases p with ⟨t, ev⟩
    cases ev with
    | junk =>
      rw [streamLoop_junk_step]
      simp only [joinDeltas]
      exact ih s full hrest
    | fail => exact absurd rfl (hev (t, StreamEvent.fail) (List.mem_cons_self _ _))
    | delta d =>
      by_cases hd : d = ""
      · subst hd
        rw [streamLoop_empty_delta_step]
        simp only [joinDeltas, String.empty_append]
        exact ih s full hrest
      · rw [streamLoop_delta_step out s full t d rest hd hout,
          ih _ (full ++ d) hrest]
        simp only [joinDeltas]
        rw [String.append_assoc]

theorem streamLoop_chunkLog (out : Nat → EditOutcome)
    (hout : ∀ i, out i ≠ EditOutcome.netErr) :
    ∀ (events : List (Nat × StreamEvent)) (s : SessionState) (full : String),
      (∀ p ∈ events, p.2 ≠ StreamEvent.fail) →
      ((streamLoop out s full events).1.chunkLog = s.chunkLog ∧ joinDeltas events = "")
      ∨ (streamLoop out s full events).1.chunkLog.getLast?
          = some (full ++ joinDeltas events) := by
  intro events
  induction events with
  | nil => intro s full _; exact Or.inl ⟨rfl, rfl⟩
  | cons p rest ih =>
    intro s full hev
    have hrest : ∀ p ∈ rest, p.2 ≠ StreamEvent.fail :=
      fun q hq => hev q (List.mem_cons_of_mem p hq)
    rcases p with ⟨t, ev⟩
    cases ev with
    | junk =>
      rw [streamLoop_junk_step]
      simp only [joinDeltas]
      exact ih s full hrest
    | fail => exact absurd rfl (hev (t, StreamEvent.fail) (List.mem_cons_self _ _))
    | delta d =>
      by_cases hd : d = ""
      · subst hd
        rw [streamLoop_empty_delta_step]
        simp only [joinDeltas, String.empty_append]
        exact ih s full hrest
      · rw [streamLoop_delta_step out s full t d rest hd hout]
        simp only [joinDeltas]
        rcases ih ((onChunk out s t (full ++ d)).1) (full ++ d) hrest with ⟨hlog, hjoin⟩ | hlast
        · right
          rw [hlog, onChunk_chunkLog out s t (full ++ d), List.getLast?_concat, hjoin,
            String.append_empty]
        · right
          rw [hlast, String.append_assoc]

theorem streamLoop_to_fail (out : Nat → EditOutcome)
    (hout : ∀ i, out i ≠ EditOutcome.netErr) (t : Nat) (rest : List (Nat × StreamEvent)) :
    ∀ (pre : List (Nat × StreamEvent)) (s : SessionState) (full : String),
      (∀ p ∈ pre, p.2 ≠ StreamEvent.fail) →
      streamLoop out s full (pre ++ (t, StreamEvent.fail) :: rest)
        = ((streamLoop out s full pre).1, Except.error ()) := by
  intro pre
  induction pre with
  | nil => intro s full _; rfl
  | cons p pr ih =>
    intro s full hev
    have hpr : ∀ q ∈ pr, q.2 ≠ StreamEvent.fail :=
      fun q hq => hev q (List.mem_cons_of_mem p hq)
    rcases p with ⟨u, ev⟩
    cases ev with
    | junk =>
      rw [List.cons_append, streamLoop_junk_step, streamLoop_junk_step]
      exact ih s full hpr
    | fail => exact absurd rfl (hev (u, StreamEvent.fail) (List.mem_cons_self _ _))
    | delta d =>
      by_cases hd : d = ""
      · subst hd
        rw [List.cons_append, streamLoop_empty_delta_step, streamLoop_empty_delta_step]
        exact ih s full hpr
      · rw [List.cons_append,
          streamLoop_delta_step out s full u d (pr ++ (t, StreamEvent.fail) :: rest) hd hout,
          streamLoop_delta_step out s full u d pr hd hout]
        exact ih _ _ hpr

theorem generateGreetingStream_ok (out : Nat → EditOutcome) (fn : Option String)
    (events : List (Nat × StreamEvent)) (tCatch : Nat)
    (hout : ∀ i, out i ≠ EditOutcome.netErr)
    (hev : ∀ p ∈ events, p.2 ≠ StreamEvent.fail) :
    generateGreetingStream out fn events tCatch
      = ((streamLoop out initState "" events).1, Except.ok (jsTrim (joinDeltas events))) := by
  have h2 := streamLoop_result out hout events initState "" hev
  rw [String.empty_append] at h2
  unfold generateGreetingStream
  rcases hsl : streamLoop out initState "" events with ⟨s, r⟩
  rw [hsl] at h2
  have hr : r = Except.ok (jsTrim (joinDeltas events)) := h2
  subst hr
  rfl

theorem generateGreetingStream_err_step (out : Nat → EditOutcome) (fn : Option String)
    (events : List (Nat × StreamEvent)) (tCatch : Nat) (s0 : SessionState)
    (hsl : streamLoop out initState "" events = (s0, Except.error ()))
    (hout : ∀ i, out i ≠ EditOutcome.netErr) :
    generateGreetingStream out fn events tCatch
      = ((onChunk out s0 tCatch (getFallbackGreeting fn)).1,
         Except.ok (getFallbackGreeting fn)) := by
  unfold generateGreetingStream
  rw [hsl]
  have h2 := onChunk_no_throw out s0 tCatch (getFallbackGreeting fn) hout
  rcases hoc : onChunk out s0 tCatch (getFallbackGreeting fn) with ⟨s1, b⟩
  rw [hoc] at h2
  have hb : b = false := h2
  subst hb
  simp only [hoc]

theorem generateGreetingStream_no_netErr (out : Nat → EditOutcome) (fn : Option String)
    (events : List (Nat × StreamEvent)) (tCatch : Nat)
    (hout : ∀ i, out i ≠ EditOutcome.netErr) :
    ∃ s g, generateGreetingStream out fn events tCatch = (s, Except.ok g) := by
  rcases hsl : streamLoop out initState "" events with ⟨s, r⟩
  cases r with
  | ok txt =>
    refine ⟨s, txt, ?_⟩
    unfold generateGreetingStream
    rw [hsl]
  | error e =>
    cases e
    exact ⟨(onChunk out s tCatch (getFallbackGreeting fn)).1, getFallbackGreeting fn,
      generateGreetingStream_err_step out fn events tCatch s hsl hout⟩

theorem handleGreetingModel_eq_ok (out : Nat → EditOutcome) (cs : EditOutcome)
    (fn : Option String) (events : List (Nat × StreamEvent)) (tCatch tEnd : Nat)
    (s : SessionState) (g : String)
    (hg : generateGreetingStream out fn events tCatch = (s, Except.ok g)) :
    handleGreetingModel out cs fn events tCatch tEnd
      = match completeSession out s tEnd g with
        | (s2, true) =>
          (s2, [genericErrorText],
            if sendThrows cs then FinOutcome.failedBoth else FinOutcome.notified)
        | (s2, false) => (s2, [], FinOutcome.success) := by
  unfold handleGreetingModel
  rw [hg]

theorem handleGreetingModel_eq_err (out : Nat → EditOutcome) (cs : EditOutcome)
    (fn : Option String) (events : List (Nat × StreamEvent)) (tCatch tEnd : Nat)
    (s : SessionState) (e : Unit)
    (hg : generateGreetingStream out fn events tCatch = (s, Except.error e)) :
    handleGreetingModel out cs fn events tCatch tEnd
      = (s, [genericErrorText],
          if sendThrows cs then FinOutcome.failedBoth else FinOutcome.notified) := by
  unfold handleGreetingModel
  rw [hg]

theorem handleGreetingModel_ok (out : Nat → EditOutcome) (cs : EditOutcome)
    (fn : Option String) (events : List (Nat × StreamEvent)) (tCatch tEnd : Nat)
    (hout : ∀ i, out i ≠ EditOutcome.netErr)
    (hev : ∀ p ∈ events, p.2 ≠ StreamEvent.fail) :
    handleGreetingModel out cs fn events tCatch tEnd
      = ((completeSession out (streamLoop out initState "" events).1 tEnd
            (jsTrim (joinDeltas events))).1,
         [], FinOutcome.success) := by
  rw [handleGreetingModel_eq_ok out cs fn events tCatch tEnd _ _
    (generateGreetingStream_ok out fn events tCatch hout hev)]
  rcases hc : completeSession out (streamLoop out initState "" events).1 tEnd
      (jsTrim (joinDeltas events)) with ⟨s2, b⟩
  have hb : b = false := by
    have h3 := completeSession_no_throw out (streamLoop out initState "" events).1 tEnd
      (jsTrim (joinDeltas events)) hout
    rw [hc] at h3
    exact h3
  subst hb
  rfl

/-! Claims C2, C3, C5, C6, C7. -/

/-- C2: on stream completion handleGreeting issues exactly one final
editMessageText call, at the completion time itself (exempt from the
minimum-interval throttle), whose text is exactly the string returned by
generateGreetingStream with no marker appended; this holds for every
chunk history and every final text, in particular when the final text
equals the most recently displayed text. -/
theorem final_edit_unconditional (chunks : List (Nat × String)) (tEnd : Nat) (ft : String) :
    ∃ pre, (fullSessionOk chunks tEnd ft).edits = pre ++ [⟨tEnd, ft, true⟩]
      ∧ ∀ e ∈ pre, e.final = false := by
  refine ⟨(fireDueTimer (fun _ => EditOutcome.okResp) (runChunksOk initState chunks)
    tEnd).edits, rfl, ?_⟩
  exact fireDueTimer_nonfinal _ _ _
    (runChunksOk_nonfinal chunks initState (fun e he => absurd he (List.not_mem_nil e)))

theorem final_edit_unconditional_witness :
    ∃ pre, (fullSessionOk [(1000, "A")] 1200 "A done").edits = pre ++ [⟨1200, "A done", true⟩]
      ∧ ∀ e ∈ pre, e.final = false :=
  final_edit_unconditional [(1000, "A")] 1200 "A done"

/-- C3 counterexample: with chunks accumulating to a text that ends in
whitespace, the final edit's text is the trimmed completion text, not the
last onChunk argument verbatim: deltas Hi then a space give last chunk
text Hi-space but final edit text Hi. -/
theorem last_chunk_not_final_verbatim :
    (handleGreetingModel (fun _ => EditOutcome.okResp) EditOutcome.okResp none
      [(1000, StreamEvent.delta "Hi"), (1600, StreamEvent.delta " ")] 0 2000).1.chunkLog.getLast?
      = some "Hi "
    ∧ (handleGreetingModel (fun _ => EditOutcome.okResp) EditOutcome.okResp none
      [(1000, StreamEvent.delta "Hi"), (1600, StreamEvent.delta " ")] 0 2000).1.edits.getLast?
      = some ⟨2000, "Hi", true⟩
    ∧ ("Hi" : String) ≠ "Hi " := by
  decide

/-- C3 amended: for every stream in which at least one chunk is delivered
(and no upstream exception or edit network error occurs), the text of the
final edit equals the last chunk received with leading and trailing
whitespace removed (the source applies String.prototype.trim to the
accumulated text before returning it), rather than the last chunk
verbatim. -/
theorem final_edit_is_trimmed_last_chunk (out : Nat → EditOutcome) (cs : EditOutcome)
    (fn : Option String) (events : List (Nat × StreamEvent)) (tCatch tEnd : Nat)
    (hout : ∀ i, out i ≠ EditOutcome.netErr)
    (hev : ∀ p ∈ events, p.2 ≠ StreamEvent.fail)
    (hchunk : (handleGreetingModel out cs fn events tCatch tEnd).1.chunkLog ≠ []) :
    ∃ c, (handleGreetingModel out cs fn events tCatch tEnd).1.chunkLog.getLast? = some c
      ∧ (handleGreetingModel out cs fn events tCatch tEnd).1.edits.getLast?
          = some ⟨tEnd, jsTrim c, true⟩ := by
  rw [handleGreetingModel_ok out cs fn events tCatch tEnd hout hev] at hchunk ⊢
  rw [completeSession_chunkLog] at hchunk ⊢
  rcases streamLoop_chunkLog out hout events initState "" hev with ⟨hlog, hjoin⟩ | hlast
  · exact absurd (by rw [hlog]; rfl) hchunk
  · refine ⟨"" ++ joinDeltas events, hlast, ?_⟩
    rw [completeSession_fst, String.empty_append]
    exact List.getLast?_concat _

theorem final_edit_is_trimmed_last_chunk_witness :
    (∀ i : Nat, (fun _ => EditOutcome.okResp) i ≠ EditOutcome.netErr)
    ∧ (∀ p ∈ [((1000 : Nat), StreamEvent.delta "A")], p.2 ≠ StreamEvent.fail)
    ∧ (handleGreetingModel (fun _ => EditOutcome.okResp) EditOutcome.okResp none
        [(1000, StreamEvent.delta "A")] 0 2000).1.chunkLog ≠ []
    ∧ ∃ c, (handleGreetingModel (fun _ => EditOutcome.okResp) EditOutcome.okResp none
          [(1000, StreamEvent.delta "A")] 0 2000).1.chunkLog.getLast? = some c
        ∧ (handleGreetingModel (fun _ => EditOutcome.okResp) EditOutcome.okResp none
          [(1000, StreamEvent.delta "A")] 0 2000).1.edits.getLast?
            = some ⟨2000, jsTrim c, true⟩ :=
  ⟨fun _ h => EditOutcome.noConfusion h, by decide, by decide,
    final_edit_is_trimmed_last_chunk (fun _ => EditOutcome.okResp) EditOutcome.okResp none
      [(1000, StreamEvent.delta "A")] 0 2000
      (fun _ h => EditOutcome.noConfusion h) (by decide) (by decide)⟩

/-- C5 counterexample: in a session where the stream succeeds with the
greeting Привет and the final edit call throws, handleGreeting sends only
the generic failure notice and never a fresh message containing the final
greeting text. -/
theorem final_edit_failure_no_greeting_resend :
    (handleGreetingModel (fun n => if n = 0 then EditOutcome.okResp else EditOutcome.netErr)
      EditOutcome.okResp none [(1000, StreamEvent.delta "Привет")] 0 2000).2.1
      = [genericErrorText]
    ∧ (handleGreetingModel (fun n => if n = 0 then EditOutcome.okResp else EditOutcome.netErr)
      EditOutcome.okResp none [(1000, StreamEvent.delta "Привет")] 0 2000).2.2
      = FinOutcome.notified
    ∧ "Привет" ∉ (handleGreetingModel
      (fun n => if n = 0 then EditOutcome.okResp else EditOutcome.netErr)
      EditOutcome.okResp none [(1000, StreamEvent.delta "Привет")] 0 2000).2.1 := by
  decide

/-- C5 amended: handleGreeting never escalates a final-edit failure by
resending the greeting: its failure path only ever sends the single
generic notice, and a final edit that merely returns ok:false (an
API-level failure) is not detected at all — when no call throws, the
session ends as success with no extra message, even if every edit call
failed at the API level. -/
theorem final_edit_failure_generic_only (out : Nat → EditOutcome) (cs : EditOutcome)
    (fn : Option String) (events : List (Nat × StreamEvent)) (tCatch tEnd : Nat)
    (hout : ∀ i, out i ≠ EditOutcome.netErr) :
    (handleGreetingModel out cs fn events tCatch tEnd).2 = ([], FinOutcome.success)
    ∧ ∀ (out' : Nat → EditOutcome) (cs' : EditOutcome) (fn' : Option String)
        (ev' : List (Nat × StreamEvent)) (tC' tE' : Nat),
        (handleGreetingModel out' cs' fn' ev' tC' tE').2.1 = []
        ∨ (handleGreetingModel out' cs' fn' ev' tC' tE').2.1 = [genericErrorText] := by
  constructor
  · rcases generateGreetingStream_no_netErr out fn events tCatch hout with ⟨s, g, hg⟩
    rw [handleGreetingModel_eq_ok out cs fn events tCatch tEnd s g hg]
    rcases hc : completeSession out s tEnd g with ⟨s2, b⟩
    have hb : b = false := by
      have h3 := completeSession_no_throw out s tEnd g hout
      rw [hc] at h3
      exact h3
    subst hb
    rfl
  · intro out' cs' fn' ev' tC' tE'
    rcases hg : generateGreetingStream out' fn' ev' tC' with ⟨s, r⟩
    cases r with
    | error e =>
      right
      rw [handleGreetingModel_eq_err out' cs' fn' ev' tC' tE' s e hg]
    | ok g =>
      rw [handleGreetingModel_eq_ok out' cs' fn' ev' tC' tE' s g hg]
      rcases hc : completeSession out' s tE' g with ⟨s2, b⟩
      cases b with
      | true => right; rfl
      | false => left; rfl

theorem final_edit_failure_generic_only_witness :
    (∀ i : Nat, (fun _ => EditOutcome.apiErr) i ≠ EditOutcome.netErr)
    ∧ ((handleGreetingModel (fun _ => EditOutcome.apiErr) EditOutcome.okResp none
          [(1000, StreamEvent.delta "A")] 0 2000).2 = ([], FinOutcome.success)
        ∧ ∀ (out' : Nat → EditOutcome) (cs' : EditOutcome) (fn' : Option String)
            (ev' : List (Nat × StreamEvent)) (tC' tE' : Nat),
            (handleGreetingModel out' cs' fn' ev' tC' tE').2.1 = []
            ∨ (handleGreetingModel out' cs' fn' ev' tC' tE').2.1 = [genericErrorText]) :=
  ⟨fun _ h => EditOutcome.noConfusion h,
    final_edit_failure_generic_only (fun _ => EditOutcome.apiErr) EditOutcome.okResp none
      [(1000, StreamEvent.delta "A")] 0 2000 (fun _ h => EditOutcome.noConfusion h)⟩

set_option maxRecDepth 8192 in
/-- C6 counterexample: a single intermediate edit call that throws (a
network error on the immediate path) is not swallowed: it propagates into
generateGreetingStream's catch, which abandons the genuine text Привет and
completes with the fallback greeting instead. -/
theorem intermediate_edit_failure_aborts_stream :
    (generateGreetingStream (fun _ => EditOutcome.netErr) none
      [(1000, StreamEvent.delta "Привет")] 1000).2
      = Except.ok (getFallbackGreeting none)
    ∧ getFallbackGreeting none ≠ "Привет"
    ∧ (generateGreetingStream (fun _ => EditOutcome.netErr) none
      [(1000, StreamEvent.delta "Привет")] 1000).1.edits.map Edit.text
      = ["Привет" ++ marker] := by
  refine ⟨by decide, by decide, by decide⟩

/-- C6 amended: an intermediate edit call that fails at the API level
(ok:false response) is logged and swallowed — the run is identical to an
all-ok run and the stream completes with the genuinely generated text;
only a thrown (network-level) immediate edit aborts the genuine stream and
substitutes the fallback greeting. -/
theorem api_level_edit_failures_swallowed (out : Nat → EditOutcome) (fn : Option String)
    (events : List (Nat × StreamEvent)) (tCatch : Nat)
    (hout : ∀ i, out i ≠ EditOutcome.netErr)
    (hev : ∀ p ∈ events, p.2 ≠ StreamEvent.fail) :
    generateGreetingStream out fn events tCatch
      = generateGreetingStream (fun _ => EditOutcome.okResp) fn events tCatch
    ∧ (generateGreetingStream out fn events tCatch).2
        = Except.ok (jsTrim (joinDeltas events)) := by
  constructor
  · rw [generateGreetingStream_ok out fn events tCatch hout hev,
      generateGreetingStream_ok (fun _ => EditOutcome.okResp) fn events tCatch
        (fun _ h => EditOutcome.noConfusion h) hev,
      streamLoop_eq_ok_run out hout events initState ""]
  · rw [generateGreetingStream_ok out fn events tCatch hout hev]

theorem api_level_edit_failures_swallowed_witness :
    (∀ i : Nat, (fun _ => EditOutcome.apiErr) i ≠ EditOutcome.netErr)
    ∧ (∀ p ∈ [((1000 : Nat), StreamEvent.delta "Привет")], p.2 ≠ StreamEvent.fail)
    ∧ (generateGreetingStream (fun _ => EditOutcome.apiErr) none
        [(1000, StreamEvent.delta "Привет")] 0
        = generateGreetingStream (fun _ => EditOutcome.okResp) none
            [(1000, StreamEvent.delta "Привет")] 0
      ∧ (generateGreetingStream (fun _ => EditOutcome.apiErr) none
          [(1000, StreamEvent.delta "Привет")] 0).2
          = Except.ok (jsTrim (joinDeltas [(1000, StreamEvent.delta "Привет")]))) :=
  ⟨fun _ h => EditOutcome.noConfusion h, by decide,
    api_level_edit_failures_swallowed (fun _ => EditOutcome.apiErr) none
      [(1000, StreamEvent.delta "Привет")] 0
      (fun _ h => EditOutcome.noConfusion h) (by decide)⟩

/-- C7 counterexample: a stream whose lines are all malformed (every
JSON.parse fails and is ignored) is not treated as an upstream failure:
generateGreetingStream completes with the empty string, never invokes
onChunk, and does not substitute the fallback greeting. -/
theorem malformed_stream_completes_empty :
    (generateGreetingStream (fun _ => EditOutcome.okResp) none
      [(1000, StreamEvent.junk), (1001, StreamEvent.junk)] 1001).2
      = Except.ok ""
    ∧ (generateGreetingStream (fun _ => EditOutcome.okResp) none
      [(1000, StreamEvent.junk), (1001, StreamEvent.junk)] 1001).1.chunkLog = []
    ∧ ("" : String) ≠ getFallbackGreeting none := by
  decide

/-- C7 amended: on an upstream failure that raises an exception (non-OK
HTTP response, or a network or read error), generateGreetingStream does
not propagate it (provided the fallback onChunk call itself does not
throw): it completes exactly once with the fixed fallback greeting, first
invoking onChunk once with that fallback; a fully malformed stream,
however, is skipped line by line and completes with the empty string
instead of the fallback. -/
theorem upstream_exception_yields_fallback (out : Nat → EditOutcome) (fn : Option String)
    (pre : List (Nat × StreamEvent)) (t : Nat) (rest : List (Nat × StreamEvent))
    (tCatch : Nat)
    (hout : ∀ i, out i ≠ EditOutcome.netErr)
    (hpre : ∀ p ∈ pre, p.2 ≠ StreamEvent.fail) :
    ∃ s log,
      generateGreetingStream out fn (pre ++ (t, StreamEvent.fail) :: rest) tCatch
        = (s, Except.ok (getFallbackGreeting fn))
      ∧ s.chunkLog = log ++ [getFallbackGreeting fn] := by
  exact ⟨(onChunk out (streamLoop out initState "" pre).1 tCatch
      (getFallbackGreeting fn)).1,
    (streamLoop out initState "" pre).1.chunkLog,
    generateGreetingStream_err_step out fn (pre ++ (t, StreamEvent.fail) :: rest) tCatch
      (streamLoop out initState "" pre).1
      (streamLoop_to_fail out hout t rest pre initState "" hpre) hout,
    onChunk_chunkLog out (streamLoop out initState "" pre).1 tCatch
      (getFallbackGreeting fn)⟩

theorem upstream_exception_yields_fallback_witness :
    (∀ i : Nat, (fun _ => EditOutcome.okResp) i ≠ EditOutcome.netErr)
    ∧ (∀ p ∈ ([] : List (Nat × StreamEvent)), p.2 ≠ StreamEvent.fail)
    ∧ ∃ s log,
        generateGreetingStream (fun _ => EditOutcome.okResp) (some "Аня")
          ([] ++ (700, StreamEvent.fail) :: []) 700
          = (s, Except.ok (getFallbackGreeting (some "Аня")))
        ∧ s.chunkLog = log ++ [getFallbackGreeting (some "Аня")] :=
  ⟨fun _ h => EditOutcome.noConfusion h, by decide,
    upstream_exception_yields_fallback (fun _ => EditOutcome.okResp) (some "Аня")
      [] 700 [] 700 (fun _ h => EditOutcome.noConfusion h) (by decide)⟩


/-! Spacing and ordering lemmas for edit logs. -/

theorem gapsOK_append : ∀ (es : List Edit) (e : Edit), gapsOK es = true →
    (∀ last, es.getLast? = some last →
      e.final = true ∨ last.time + EDIT_THROTTLE_MS ≤ e.time) →
    gapsOK (es ++ [e]) = true := by
  intro es
  induction es with
  | nil => intro e _ _; rfl
  | cons x tail ih =>
    intro e h hl
    cases tail with
    | nil =>
      have hx := hl x rfl
      show gapsOK [x, e] = true
      rcases hx with hx | hx <;> simp [gapsOK, hx]
    | cons y rest =>
      simp only [gapsOK, Bool.and_eq_true] at h
      simp only [List.cons_append, gapsOK, Bool.and_eq_true]
      exact ⟨h.1, ih e h.2
        (fun last hlast => hl last (by rw [List.getLast?_cons_cons]; exact hlast))⟩

theorem timesSorted_append : ∀ (es : List Edit) (e : Edit), timesSorted es = true →
    (∀ last, es.getLast? = some last → last.time ≤ e.time) →
    timesSorted (es ++ [e]) = true := by
  intro es
  induction es with
  | nil => intro e _ _; rfl
  | cons x tail ih =>
    intro e h hl
    cases tail with
    | nil =>
      have hx := hl x rfl
      show timesSorted [x, e] = true
      simp [timesSorted, hx]
    | cons y rest =>
      simp only [timesSorted, Bool.and_eq_true] at h
      simp only [List.cons_append, timesSorted, Bool.and_eq_true]
      exact ⟨h.1, ih e h.2
        (fun last hlast => hl last (by rw [List.getLast?_cons_cons]; exact hlast))⟩

/-! The weak throttle invariant: preservation along a session. -/

theorem WInv_init : WInv initState 0 := by
  refine ⟨Nat.le_refl 0, ?_, rfl, ?_⟩
  · intro f hf
    simp [initState] at hf
  · intro h
    exact absurd rfl h

theorem WInv_mono (s : SessionState) (b b' : Nat) (hw : WInv s b) (h : b ≤ b') :
    WInv s b' :=
  ⟨Nat.le_trans hw.last_le h, hw.timer_eq, hw.gaps, hw.last_edit⟩

theorem WInv_fire (s : SessionState) (bound t' : Nat) (hw : WInv s bound) (hb : bound ≤ t') :
    WInv (fireDueTimer (fun _ => EditOutcome.okResp) s t') t' := by
  unfold fireDueTimer
  split
  · exact WInv_mono s bound t' hw hb
  · rename_i f heq
    split
    · rename_i hlt
      have hf := hw.timer_eq f heq
      refine ⟨Nat.le_of_lt hlt, ?_, ?_, ?_⟩
      · intro f' hf'
        simp [doEdit] at hf'
      · show gapsOK (s.edits ++ [Edit.mk f (s.pendingText ++ marker) false]) = true
        apply gapsOK_append s.edits _ hw.gaps
        intro last hlast
        right
        have hne : s.edits ≠ [] := by
          intro hnil
          rw [hnil] at hlast
          simp at hlast
        have hlt2 := hw.last_edit hne
        rw [hlast] at hlt2
        have h3 : last.time = s.lastEditTime := Option.some.inj hlt2
        show last.time + EDIT_THROTTLE_MS ≤ f
        omega
      · intro _
        show ((s.edits ++ [Edit.mk f (s.pendingText ++ marker) false]).getLast?).map Edit.time
          = some f
        rw [List.getLast?_concat]
        rfl
    · exact WInv_mono s bound t' hw hb

theorem WInv_onChunkCore (s : SessionState) (t' : Nat) (c : String) (hw : WInv s t') :
    WInv (onChunkCore (fun _ => EditOutcome.okResp) s t' c).1 t' := by
  unfold onChunkCore
  split
  · rename_i hc
    refine ⟨Nat.le_refl t', ?_, ?_, ?_⟩
    · intro f' hf'
      simp [doEdit] at hf'
    · show gapsOK (s.edits ++ [Edit.mk t' (c ++ marker) false]) = true
      apply gapsOK_append s.edits _ hw.gaps
      intro last hlast
      right
      have hne : s.edits ≠ [] := by
        intro hnil
        rw [hnil] at hlast
        simp at hlast
      have hlt2 := hw.last_edit hne
      rw [hlast] at hlt2
      have h3 : last.time = s.lastEditTime := Option.some.inj hlt2
      have hT : EDIT_THROTTLE_MS = 500 := rfl
      show last.time + EDIT_THROTTLE_MS ≤ t'
      omega
    · intro _
      show ((s.edits ++ [Edit.mk t' (c ++ marker) false]).getLast?).map Edit.time = some t'
      rw [List.getLast?_concat]
      rfl
  · rename_i hc
    refine ⟨hw.last_le, ?_, hw.gaps, hw.last_edit⟩
    intro f' hf'
    have h4 : t' + (EDIT_THROTTLE_MS - (t' - s.lastEditTime)) = f' := Option.some.inj hf'
    have h5 := hw.last_le
    show f' = s.lastEditTime + EDIT_THROTTLE_MS
    omega

theorem WInv_onChunk (s : SessionState) (bound t' : Nat) (c : String)
    (hw : WInv s bound) (hb : bound ≤ t') :
    WInv (onChunkOk s t' c) t' :=
  WInv_onChunkCore (fireDueTimer (fun _ => EditOutcome.okResp) s t') t' c
    (WInv_fire s bound t' hw hb)

theorem WInv_run (tEnd : Nat) :
    ∀ (chunks : List (Nat × String)) (s : SessionState) (bound : Nat),
    WInv s bound → traceFrom bound chunks tEnd = true →
    ∃ bound', WInv (runChunksOk s chunks) bound' ∧ bound' ≤ tEnd := by
  intro chunks
  induction chunks with
  | nil =>
    intro s bound hw h
    exact ⟨bound, hw, by simpa [traceFrom] using h⟩
  | cons p rest ih =>
    intro s bound hw h
    rcases p with ⟨t, c⟩
    simp only [traceFrom, Bool.and_eq_true, decide_eq_true_eq] at h
    exact ih (onChunkOk s t c) t (WInv_onChunk s bound t c hw h.1) h.2

theorem WInv_complete_gaps (s : SessionState) (bound tEnd : Nat) (ft : String)
    (hw : WInv s bound) (hb : bound ≤ tEnd) :
    gapsOK (completeSession (fun _ => EditOutcome.okResp) s tEnd ft).1.edits = true := by
  have hwF := WInv_fire s bound tEnd hw hb
  show gapsOK
    ((fireDueTimer (fun _ => EditOutcome.okResp) s tEnd).edits ++ [⟨tEnd, ft, true⟩]) = true
  exact gapsOK_append _ _ hwF.gaps (fun last _ => Or.inl rfl)

/-- C1: for every chunk sequence delivered to onChunk with non-decreasing
arrival times (the wall clock is monotone) and completion at or after the
last chunk, the issued editMessageText calls never contain two consecutive
calls less than EDIT_THROTTLE_MS apart, with the single exception of the
pair ending in the mandatory final edit. -/
theorem edit_calls_throttled (chunks : List (Nat × String)) (tEnd : Nat) (ft : String)
    (h : validTrace chunks tEnd = true) :
    gapsOK (fullSessionOk chunks tEnd ft).edits = true := by
  rcases WInv_run tEnd chunks initState 0 WInv_init h with ⟨bound', hw, hb⟩
  exact WInv_complete_gaps (runChunksOk initState chunks) bound' tEnd ft hw hb

theorem edit_calls_throttled_witness :
    validTrace [(1000, "A"), (1600, "AB"), (1800, "ABC")] 1900 = true
    ∧ gapsOK (fullSessionOk [(1000, "A"), (1600, "AB"), (1800, "ABC")] 1900 "ABC.").edits
        = true :=
  ⟨by decide,
    edit_calls_throttled [(1000, "A"), (1600, "AB"), (1800, "ABC")] 1900 "ABC." (by decide)⟩

/-! Lemmas about the most-recent-chunk function. -/

theorem latestTextAt_append_gt (done : List (Nat × String)) (t' : Nat) (c : String)
    (t : Nat) (h : t < t') :
    latestTextAt (done ++ [(t', c)]) t = latestTextAt done t := by
  unfold latestTextAt
  rw [List.filter_append]
  have h2 : List.filter (fun p => decide (p.1 ≤ t)) [(t', c)] = [] := by
    simp [Nat.not_le.mpr h]
  rw [h2, List.append_nil]

theorem latestTextAt_append_le (done : List (Nat × String)) (t' : Nat) (c : String)
    (t : Nat) (h : t' ≤ t) :
    latestTextAt (done ++ [(t', c)]) t = some c := by
  unfold latestTextAt
  rw [List.filter_append]
  have h2 : List.filter (fun p => decide (p.1 ≤ t)) [(t', c)] = [(t', c)] := by
    simp [h]
  rw [h2, List.getLast?_concat]
  rfl

theorem latestTextAt_all (done : List (Nat × String)) (t : Nat)
    (h : ∀ p ∈ done, p.1 ≤ t) :
    latestTextAt done t = (done.getLast?).map Prod.snd := by
  unfold latestTextAt
  rw [show done.filter (fun p => decide (p.1 ≤ t)) = done from
    List.filter_eq_self.mpr (fun a ha => by simpa using h a ha)]

/-! The strong throttle invariant: preservation along a session with
strictly increasing chunk times. -/

theorem SInv_init : SInv [] initState 0 := by
  refine ⟨Nat.le_refl 0, ?_, ?_, ?_, ?_, ?_, ?_, rfl, rfl, ?_, ?_, ?_, ?_⟩
  · intro f hf
    simp [initState] at hf
  · intro f hf
    simp [initState] at hf
  · intro f hf
    simp [initState] at hf
  · intro hne
    exact absurd rfl hne
  · intro p hp
    exact absurd hp (List.not_mem_nil p)
  · intro e he
    exact absurd he (List.not_mem_nil e)
  · intro hne
    exact absurd rfl hne
  · intro e he
    exact absurd he (List.not_mem_nil e)
  · intro e he
    exact absurd he (List.not_mem_nil e)
  · intro _
    exact ⟨rfl, rfl, rfl⟩

theorem SInv_mono (done : List (Nat × String)) (s : SessionState) (b b' : Nat)
    (hs : SInv done s b) (h : b ≤ b')
    (htimer : ∀ f, s.timer = some f → b' ≤ f) : SInv done s b' :=
  ⟨Nat.le_trans hs.last_le h, hs.timer_eq, htimer, hs.timer_done, hs.pending_ok,
    fun p hp => Nat.le_trans (hs.done_le p hp) h, hs.nonfinal, hs.gaps, hs.sorted,
    hs.last_edit, hs.edits_le, hs.texts, hs.empty_init⟩

theorem SInv_fire (done : List (Nat × String)) (s : SessionState) (bound t' : Nat)
    (hs : SInv done s bound) (hb : bound ≤ t') :
    SInv done (fireDueTimer (fun _ => EditOutcome.okResp) s t') t' := by
  unfold fireDueTimer
  split
  · rename_i heq
    exact SInv_mono done s bound t' hs hb
      (fun f hf => by rw [heq] at hf; exact Option.noConfusion hf)
  · rename_i f heq
    split
    · rename_i hlt
      have hfeq := hs.timer_eq f heq
      have hbf := hs.timer_ge f heq
      have hdne := hs.timer_done f heq
      refine ⟨Nat.le_of_lt hlt, ?_, ?_, ?_, ?_, ?_, ?_, ?_, ?_, ?_, ?_, ?_, ?_⟩
      · intro f' hf'
        simp [doEdit] at hf'
      · intro f' hf'
        simp [doEdit] at hf'
      · intro f' hf'
        simp [doEdit] at hf'
      · intro hne
        exact hs.pending_ok hne
      · intro p hp
        exact Nat.le_trans (hs.done_le p hp) hb
      · intro e he
        rw [doEdit_fst] at he
        simp only [List.mem_append, List.mem_singleton] at he
        rcases he with he | he
        · exact hs.nonfinal e he
        · rw [he]
      · show gapsOK (s.edits ++ [Edit.mk f (s.pendingText ++ marker) false]) = true
        apply gapsOK_append s.edits _ hs.gaps
        intro last hlast
        right
        have hne : s.edits ≠ [] := by
          intro hnil
          rw [hnil] at hlast
          simp at hlast
        have hlt2 := hs.last_edit hne
        rw [hlast] at hlt2
        have h3 : last.time = s.lastEditTime := Option.some.inj hlt2
        show last.time + EDIT_THROTTLE_MS ≤ f
        omega
      · show timesSorted (s.edits ++ [Edit.mk f (s.pendingText ++ marker) false]) = true
        apply timesSorted_append s.edits _ hs.sorted
        intro last hlast
        have hne : s.edits ≠ [] := by
          intro hnil
          rw [hnil] at hlast
          simp at hlast
        have hlt2 := hs.last_edit hne
        rw [hlast] at hlt2
        have h3 : last.time = s.lastEditTime := Option.some.inj hlt2
        show last.time ≤ f
        omega
      · intro _
        show ((s.edits ++ [Edit.mk f (s.pendingText ++ marker) false]).getLast?).map Edit.time
          = some f
        rw [List.getLast?_concat]
        rfl
      · intro e he
        rw [doEdit_fst] at he
        simp only [List.mem_append, List.mem_singleton] at he
        rcases he with he | he
        · have h6 := hs.edits_le e he
          show e.time ≤ f
          omega
        · rw [he]
          exact Nat.le_refl f
      · intro e he
        rw [doEdit_fst] at he
        simp only [List.mem_append, List.mem_singleton] at he
        rcases he with he | he
        · exact hs.texts e he
        · refine ⟨s.pendingText, ?_, ?_⟩
          · rw [he]
            show latestTextAt done f = some s.pendingText
            rw [latestTextAt_all done f (fun p hp => Nat.le_trans (hs.done_le p hp) hbf)]
            exact hs.pending_ok hdne
          · rw [he]
      · intro hdnil
        exact absurd hdnil hdne
    · rename_i hge
      exact SInv_mono done s bound t' hs hb
        (fun f' hf' => by
          rw [heq] at hf'
          have h4 : f = f' := Option.some.inj hf'
          omega)

theorem fire_strict (done : List (Nat × String)) (s : SessionState) (bound t' : Nat)
    (hs : SInv done s bound) (hcase : done = [] ∨ bound < t') :
    (fireDueTimer (fun _ => EditOutcome.okResp) s t').edits = []
    ∨ (fireDueTimer (fun _ => EditOutcome.okResp) s t').lastEditTime < t' := by
  unfold fireDueTimer
  split
  · rcases hcase with hnil | hlt
    · left
      exact (hs.empty_init hnil).1
    · right
      have := hs.last_le
      omega
  · rename_i f heq
    split
    · rename_i hlt
      right
      exact hlt
    · rcases hcase with hnil | hlt
      · left
        exact (hs.empty_init hnil).1
      · right
        have := hs.last_le
        omega

theorem SInv_onChunkCore (done : List (Nat × String)) (s : SessionState) (t' : Nat)
    (c : String) (hs : SInv done s t')
    (hstrict : s.edits = [] ∨ s.lastEditTime < t') :
    SInv (done ++ [(t', c)]) (onChunkCore (fun _ => EditOutcome.okResp) s t' c).1 t' := by
  unfold onChunkCore
  split
  · rename_i hc
    refine ⟨Nat.le_refl t', ?_, ?_, ?_, ?_, ?_, ?_, ?_, ?_, ?_, ?_, ?_, ?_⟩
    · intro f' hf'
      simp [doEdit] at hf'
    · intro f' hf'
      simp [doEdit] at hf'
    · intro f' hf'
      simp [doEdit] at hf'
    · intro _
      show ((done ++ [(t', c)]).getLast?).map Prod.snd = some c
      rw [List.getLast?_concat]
      rfl
    · intro p hp
      rcases List.mem_append.mp hp with hp | hp
      · exact hs.done_le p hp
      · rw [List.mem_singleton] at hp
        rw [hp]
    · intro e he
      rw [doEdit_fst] at he
      simp only [List.mem_append, List.mem_singleton] at he
      rcases he with he | he
      · exact hs.nonfinal e he
      · rw [he]
    · show gapsOK (s.edits ++ [Edit.mk t' (c ++ marker) false]) = true
      apply gapsOK_append s.edits _ hs.gaps
      intro last hlast
      right
      have hne : s.edits ≠ [] := by
        intro hnil
        rw [hnil] at hlast
        simp at hlast
      have hlt2 := hs.last_edit hne
      rw [hlast] at hlt2
      have h3 : last.time = s.lastEditTime := Option.some.inj hlt2
      have hT : EDIT_THROTTLE_MS = 500 := rfl
      show last.time + EDIT_THROTTLE_MS ≤ t'
      omega
    · show timesSorted (s.edits ++ [Edit.mk t' (c ++ marker) false]) = true
      apply timesSorted_append s.edits _ hs.sorted
      intro last hlast
      have hne : s.edits ≠ [] := by
        intro hnil
        rw [hnil] at hlast
        simp at hlast
      have hlt2 := hs.last_edit hne
      rw [hlast] at hlt2
      have h3 : last.time = s.lastEditTime := Option.some.inj hlt2
      have h7 := hs.last_le
      show last.time ≤ t'
      omega
    · intro _
      show ((s.edits ++ [Edit.mk t' (c ++ marker) false]).getLast?).map Edit.time = some t'
      rw [List.getLast?_concat]
      rfl
    · intro e he
      rw [doEdit_fst] at he
      simp only [List.mem_append, List.mem_singleton] at he
      rcases he with he | he
      · have h6 := hs.edits_le e he
        have h7 := hs.last_le
        show e.time ≤ t'
        omega
      · rw [he]
        exact Nat.le_refl t'
    · intro e he
      rw [doEdit_fst] at he
      simp only [List.mem_append, List.mem_singleton] at he
      rcases he with he | he
      · rcases hs.texts e he with ⟨ct, hct, htext⟩
        refine ⟨ct, ?_, htext⟩
        rw [latestTextAt_append_gt done t' c e.time ?_]
        · exact hct
        · rcases hstrict with hnil | hlt
          · exact absurd (hnil ▸ he) (List.not_mem_nil e)
          · have := hs.edits_le e he
            omega
      · refine ⟨c, ?_, ?_⟩
        · rw [he]
          show latestTextAt (done ++ [(t', c)]) t' = some c
          exact latestTextAt_append_le done t' c t' (Nat.le_refl t')
        · rw [he]
    · intro hd
      exact absurd hd (by simp)
  · rename_i hc
    refine ⟨hs.last_le, ?_, ?_, ?_, ?_, ?_, hs.nonfinal, hs.gaps, hs.sorted,
      hs.last_edit, hs.edits_le, ?_, ?_⟩
    · intro f' hf'
      have h4 : t' + (EDIT_THROTTLE_MS - (t' - s.lastEditTime)) = f' := Option.some.inj hf'
      have h5 := hs.last_le
      show f' = s.lastEditTime + EDIT_THROTTLE_MS
      omega
    · intro f' hf'
      have h4 : t' + (EDIT_THROTTLE_MS - (t' - s.lastEditTime)) = f' := Option.some.inj hf'
      show t' ≤ f'
      omega
    · intro f' _
      simp
    · intro _
      show ((done ++ [(t', c)]).getLast?).map Prod.snd = some c
      rw [List.getLast?_concat]
      rfl
    · intro p hp
      rcases List.mem_append.mp hp with hp | hp
      · exact hs.done_le p hp
      · rw [List.mem_singleton] at hp
        rw [hp]
    · intro e he
      rcases hs.texts e he with ⟨ct, hct, htext⟩
      refine ⟨ct, ?_, htext⟩
      rw [latestTextAt_append_gt done t' c e.time ?_]
      · exact hct
      · rcases hstrict with hnil | hlt
        · exact absurd (hnil ▸ he) (List.not_mem_nil e)
        · have := hs.edits_le e he
          omega
    · intro hd
      exact absurd hd (by simp)

theorem SInv_onChunk (done : List (Nat × String)) (s : SessionState) (bound t' : Nat)
    (c : String) (hs : SInv done s bound) (hb : bound ≤ t')
    (hcase : done = [] ∨ bound < t') :
    SInv (done ++ [(t', c)]) (onChunkOk s t' c) t' :=
  SInv_onChunkCore done (fireDueTimer (fun _ => EditOutcome.okResp) s t') t' c
    (SInv_fire done s bound t' hs hb)
    (fire_strict done s bound t' hs hcase)

theorem SInv_run (tEnd : Nat) :
    ∀ (rest done : List (Nat × String)) (s : SessionState) (bound : Nat),
    SInv done s bound → strictFrom bound rest tEnd = true →
    ∃ bound', SInv (done ++ rest) (runChunksOk s rest) bound' ∧ bound' ≤ tEnd := by
  intro rest
  induction rest with
  | nil =>
    intro done s bound hs h
    refine ⟨bound, ?_, by simpa [strictFrom] using h⟩
    rw [List.append_nil]
    exact hs
  | cons p rest' ih =>
    intro done s bound hs h
    rcases p with ⟨t, c⟩
    simp only [strictFrom, Bool.and_eq_true, decide_eq_true_eq] at h
    have hs2 := SInv_onChunk done s bound t c hs (Nat.le_of_lt h.1) (Or.inr h.1)
    rcases ih (done ++ [(t, c)]) (onChunkOk s t c) t hs2 h.2 with ⟨bound', hs3, hb3⟩
    refine ⟨bound', ?_, hb3⟩
    rw [show done ++ (t, c) :: rest' = (done ++ [(t, c)]) ++ rest' from by simp]
    exact hs3

theorem SInv_complete (done : List (Nat × String)) (s : SessionState) (bound tEnd : Nat)
    (ft : String) (hs : SInv done s bound) (hb : bound ≤ tEnd) :
    (∀ e ∈ (completeSession (fun _ => EditOutcome.okResp) s tEnd ft).1.edits,
        e.final = false → ∃ c, latestTextAt done e.time = some c ∧ e.text = c ++ marker)
    ∧ timesSorted (completeSession (fun _ => EditOutcome.okResp) s tEnd ft).1.edits
        = true := by
  have hsF := SInv_fire done s bound tEnd hs hb
  constructor
  · intro e he hfin
    have he2 : e ∈ (fireDueTimer (fun _ => EditOutcome.okResp) s tEnd).edits
        ++ [Edit.mk tEnd ft true] := he
    rcases List.mem_append.mp he2 with he3 | he3
    · exact hsF.texts e he3
    · rw [List.mem_singleton] at he3
      rw [he3] at hfin
      exact absurd hfin (by simp)
  · show timesSorted ((fireDueTimer (fun _ => EditOutcome.okResp) s tEnd).edits
        ++ [Edit.mk tEnd ft true]) = true
    apply timesSorted_append _ _ hsF.sorted
    intro last hlast
    have hne : (fireDueTimer (fun _ => EditOutcome.okResp) s tEnd).edits ≠ [] := by
      intro hnil
      rw [hnil] at hlast
      simp at hlast
    have hlt2 := hsF.last_edit hne
    rw [hlast] at hlt2
    have h3 : last.time = (fireDueTimer (fun _ => EditOutcome.okResp) s tEnd).lastEditTime :=
      Option.some.inj hlt2
    have h4 := hsF.last_le
    show last.time ≤ tEnd
    omega

/-- C4: with chunks arriving at distinct, increasing times, every
non-final edit issued by the throttle carries the marker-suffixed text of
the most recent chunk delivered at that edit's issue time, and the edit
calls are issued in chronological order; together these give monotonic
freshness — no edit ever shows text of an older chunk than a previously
issued edit. -/
theorem edits_carry_latest_chunk (chunks : List (Nat × String)) (tEnd : Nat) (ft : String)
    (h : strictTrace chunks tEnd = true) :
    (∀ e ∈ (fullSessionOk chunks tEnd ft).edits, e.final = false →
      ∃ c, latestTextAt chunks e.time = some c ∧ e.text = c ++ marker)
    ∧ timesSorted (fullSessionOk chunks tEnd ft).edits = true := by
  cases chunks with
  | nil =>
    exact SInv_complete [] initState 0 tEnd ft SInv_init (Nat.zero_le tEnd)
  | cons p rest =>
    rcases p with ⟨t1, c1⟩
    have h1 : strictFrom t1 rest tEnd = true := h
    have hs1 := SInv_onChunk [] initState 0 t1 c1 SInv_init (Nat.zero_le t1) (Or.inl rfl)
    rcases SInv_run tEnd rest [(t1, c1)] (onChunkOk initState t1 c1) t1 hs1 h1 with
      ⟨bound', hs2, hb2⟩
    exact SInv_complete ([(t1, c1)] ++ rest) (runChunksOk (onChunkOk initState t1 c1) rest)
      bound' tEnd ft hs2 hb2

theorem edits_carry_latest_chunk_witness :
    strictTrace [(1000, "A"), (1600, "AB")] 1700 = true
    ∧ ((∀ e ∈ (fullSessionOk [(1000, "A"), (1600, "AB")] 1700 "AB.").edits,
          e.final = false →
          ∃ c, latestTextAt [(1000, "A"), (1600, "AB")] e.time = some c
            ∧ e.text = c ++ marker)
      ∧ timesSorted (fullSessionOk [(1000, "A"), (1600, "AB")] 1700 "AB.").edits = true) :=
  ⟨by decide, edits_carry_latest_chunk [(1000, "A"), (1600, "AB")] 1700 "AB." (by decide)⟩

end NYB
